import Mathlib

/-!
Verification development for the partitioned, spill-to-disk hash-join
operator (`PartitionedHashJoinNode`) of src/be/src/exec/partitioned-hash-join-node.h.
Only the header (declarations and documentation comments) is present in the
repository; operation bodies are modelled from the specification where noted.
-/

namespace PartitionedHashJoin

/-- Number of initial partitions to create (partitioned-hash-join-node.h line 114:
`static const int PARTITION_FANOUT = 4;`). -/
def PARTITION_FANOUT : Nat := 4

/-- Number of partitioning bits (partitioned-hash-join-node.h line 117:
`static const int NUM_PARTITIONING_BITS = 2;`). -/
def NUM_PARTITIONING_BITS : Nat := 2

/-- Maximum number of times we will repartition (partitioned-hash-join-node.h
line 127: `static const int MAX_PARTITION_DEPTH = 4;`). -/
def MAX_PARTITION_DEPTH : Nat := 4

/-- Maximum number of build tables in memory (partitioned-hash-join-node.h
line 134: `static const int MAX_IN_MEM_BUILD_TABLES = PARTITION_FANOUT;`). -/
def MAX_IN_MEM_BUILD_TABLES : Nat := PARTITION_FANOUT

/-- Join variants of the operator (spec section 6 `join_op`). -/
inductive TJoinOp where
  | INNER_JOIN
  | LEFT_OUTER_JOIN
  | RIGHT_OUTER_JOIN
  | FULL_OUTER_JOIN
  | LEFT_SEMI_JOIN
  | RIGHT_SEMI_JOIN
  | LEFT_ANTI_JOIN
  | RIGHT_ANTI_JOIN
  deriving DecidableEq, Repr

/-- The state machine of the operator (partitioned-hash-join-node.h lines 93-110). -/
inductive State where
  | PARTITIONING_BUILD
  | PROCESSING_PROBE
  | PROBING_SPILLED_PARTITION
  | REPARTITIONING
  deriving DecidableEq, Repr

/-- Modelled from the spec: the body of `UpdateState` is not in src/ (only its
declaration at partitioned-hash-join-node.h line 228); the allowed transitions
are taken from the header comment at lines 88-92: the transition goes from
PARTITIONING_BUILD to PROCESSING_PROBE to
PROBING_SPILLED_PARTITION/REPARTITIONING, and the last two steps switch back
and forth as many times as repartitioning requires. -/
def validTransition : State → State → Bool
  | .PARTITIONING_BUILD, .PROCESSING_PROBE => true
  | .PROCESSING_PROBE, .PROBING_SPILLED_PARTITION => true
  | .PROCESSING_PROBE, .REPARTITIONING => true
  | .PROBING_SPILLED_PARTITION, .PROBING_SPILLED_PARTITION => true
  | .PROBING_SPILLED_PARTITION, .REPARTITIONING => true
  | .REPARTITIONING, .PROBING_SPILLED_PARTITION => true
  | .REPARTITIONING, .REPARTITIONING => true
  | _, _ => false

/-- A run of the state machine: `validRun s ts` holds when the successive
states `ts` are reachable from `s` through `validTransition` steps. -/
def validRun : State → List State → Bool
  | _, [] => true
  | s, t :: ts => validTransition s t && validRun t ts

/-- The two drain states of phase 4. -/
def isDrainState (s : State) : Bool :=
  s = State.PROBING_SPILLED_PARTITION || s = State.REPARTITIONING

theorem validTransition_ne_partitioning_build (s t : State)
    (h : validTransition s t = true) : t ≠ State.PARTITIONING_BUILD := by
  cases s <;> cases t <;> simp_all [validTransition]

theorem validTransition_from_drain (s t : State)
    (hs : isDrainState s = true) (h : validTransition s t = true) :
    isDrainState t = true := by
  cases s <;> cases t <;> simp_all [validTransition, isDrainState]

theorem validRun_suffix (s t : State) (ts₁ ts₂ : List State)
    (h : validRun s (ts₁ ++ t :: ts₂) = true) : validRun t ts₂ = true := by
  induction ts₁ generalizing s with
  | nil =>
    simp only [List.nil_append, validRun, Bool.and_eq_true] at h
    exact h.2
  | cons u ts₁ ih =>
    simp only [List.cons_append, validRun, Bool.and_eq_true] at h
    exact ih u h.2

theorem validRun_no_return_to_build (s : State) (ts : List State)
    (h : validRun s ts = true) : ∀ u ∈ ts, u ≠ State.PARTITIONING_BUILD := by
  induction ts generalizing s with
  | nil => intro u hu; cases hu
  | cons t ts ih =>
    simp only [validRun, Bool.and_eq_true] at h
    intro u hu
    rcases List.mem_cons.mp hu with rfl | hu
    · exact validTransition_ne_partitioning_build s u h.1
    · exact ih t h.2 u hu

theorem validRun_stays_drain (s : State) (ts : List State)
    (hs : isDrainState s = true) (h : validRun s ts = true) :
    ∀ u ∈ ts, isDrainState u = true := by
  induction ts generalizing s with
  | nil => intro u hu; cases hu
  | cons t ts ih =>
    simp only [validRun, Bool.and_eq_true] at h
    intro u hu
    rcases List.mem_cons.mp hu with rfl | hu
    · exact validTransition_from_drain s u hs h.1
    · exact ih t (validTransition_from_drain s t hs h.1) h.2 u hu

/-- Error kinds of the operator that the modelled fragments produce
(spec section 7). -/
inductive JoinError where
  | memLimitExceeded
  | repartitionLimit
  deriving DecidableEq, Repr

/-- A buffered tuple stream owned by a partition: its rows (abstract row ids)
and whether its pages are pinned in memory. -/
structure BTStream where
  rows : List Nat
  pinned : Bool
  deriving DecidableEq, Repr

/-- A partition (partitioned-hash-join-node.h lines 281-336): a repartition
level, two optional buffered tuple streams (a `none` stream has been
transferred away, header line 333), an optional hash table modelled as its
bucket count and the multiset of inserted rows, a closed flag, and a flag
recording that `BuildHashTable` was called so build rows can no longer be
added (header line 308). -/
structure Partition where
  level : Nat
  is_closed : Bool
  hashTbl : Option (Nat × List Nat)
  buildStream : Option BTStream
  probeStream : Option BTStream
  buildWriteClosed : Bool
  deriving DecidableEq, Repr

/-- Modelled from the spec: the body of `Partition::is_spilled` is not in src/
(only its declaration at partitioned-hash-join-node.h line 291). Per the header
comment at line 40, a spilled partition is one that is not fully pinned: the
partition owns a build stream whose pages are unpinned. -/
def Partition.is_spilled (p : Partition) : Bool :=
  match p.buildStream with
  | some s => !s.pinned
  | none => false

/-- Bucket count of a hash table over `n` build rows: proportional to the row
count (spec section 4.2, `build_hash_table`). -/
def htBucketCount (n : Nat) : Nat := 2 * n

/-- Modelled from the spec: a fresh partition created during ProcessBuildInput
(spec section 3, Partition lifecycle) with an empty pinned build stream; the
probe stream is allocated lazily. -/
def newPartition (level : Nat) : Partition :=
  { level := level, is_closed := false, hashTbl := none,
    buildStream := some { rows := [], pinned := true },
    probeStream := none, buildWriteClosed := false }

/-- Modelled from the spec: the body of `Partition::BuildHashTable` is not in
src/ (only its declaration at partitioned-hash-join-node.h line 310). Per the
header comment at lines 307-309 and spec section 4.2 it pins the build tuples,
constructs the hash table from them (sized proportional to the row count,
inserting every row), and build rows cannot be added afterwards; when the
partition could not be built due to memory pressure (`canPin`/`canAlloc`
false) the stream is left unpinned and `built` is false. -/
def Partition.BuildHashTable (canPin canAlloc : Bool) (p : Partition) :
    Partition × Bool :=
  match p.buildStream with
  | none => (p, false)
  | some s =>
    if canPin && canAlloc then
      ({ p with buildStream := some { s with pinned := true },
                hashTbl := some (htBucketCount s.rows.length, s.rows),
                buildWriteClosed := true }, true)
    else
      ({ p with buildStream := some { s with pinned := false },
                hashTbl := none, buildWriteClosed := true }, false)

/-- Modelled from the spec: `append_build` (spec section 4.2) appends a row to
the build stream; after `BuildHashTable` build rows cannot be added
(partitioned-hash-join-node.h line 308). -/
def Partition.append_build (p : Partition) (r : Nat) : Partition × Bool :=
  if p.buildWriteClosed then (p, false)
  else
    match p.buildStream with
    | none => (p, false)
    | some s => ({ p with buildStream := some { s with rows := s.rows ++ [r] } }, true)

/-- Modelled from the spec: appending a probe row (spec section 4.2). -/
def Partition.append_probe (p : Partition) (r : Nat) : Partition × Bool :=
  match p.probeStream with
  | none => (p, false)
  | some s => ({ p with probeStream := some { s with rows := s.rows ++ [r] } }, true)

/-- Modelled from the spec: lazily allocating the probe stream
(spec section 3, Partition lifecycle). -/
def Partition.allocProbe (p : Partition) : Partition :=
  match p.probeStream with
  | none => { p with probeStream := some { rows := [], pinned := true } }
  | some _ => p

/-- Modelled from the spec: spilling a partition unpins its streams
(spec section 4.6); the hash table of a spilled partition does not exist
(spec section 5, shared resources). -/
def Partition.spill (p : Partition) : Partition :=
  { p with hashTbl := none,
           buildStream := p.buildStream.map (fun s => { s with pinned := false }),
           probeStream := p.probeStream.map (fun s => { s with pinned := false }) }

/-- Modelled from the spec: the body of `Partition::Close` is not in src/
(only its declaration at partitioned-hash-join-node.h line 297). It releases
the hash table and transfers the streams away (header lines 293-297 and
329-333), so a closed partition owns nothing. -/
def Partition.Close (p : Partition) : Partition :=
  { p with is_closed := true, hashTbl := none,
           buildStream := none, probeStream := none }

/-- The operations a partition undergoes during the life of the operator. -/
inductive POp where
  | appendBuild (r : Nat)
  | appendProbe (r : Nat)
  | allocProbe
  | build (canPin canAlloc : Bool)
  | spill
  | close
  deriving DecidableEq, Repr

/-- One partition-lifecycle step; a closed partition is never touched again
(partitioned-hash-join-node.h line 317: completely processed, nothing needs to
be done for it again). -/
def applyOp (p : Partition) (o : POp) : Partition :=
  if p.is_closed then p
  else
    match o with
    | .appendBuild r => (p.append_build r).1
    | .appendProbe r => (p.append_probe r).1
    | .allocProbe => p.allocProbe
    | .build canPin canAlloc => (p.BuildHashTable canPin canAlloc).1
    | .spill => p.spill
    | .close => p.Close

/-- True when the partition owns a build stream that is unpinned. -/
def Partition.buildUnpinned (p : Partition) : Bool :=
  match p.buildStream with
  | some s => !s.pinned
  | none => false

/-- The C8 state invariant: a non-closed partition is spilled exactly when its
hash table is null and its build stream is unpinned, and a closed partition
owns no hash table and no streams. -/
def PartitionInv (p : Partition) : Prop :=
  (p.is_closed = false →
    (p.is_spilled = true ↔ p.hashTbl = none ∧ p.buildUnpinned = true)) ∧
  (p.is_closed = true →
    p.hashTbl = none ∧ p.buildStream = none ∧ p.probeStream = none)

theorem partitionInv_new (level : Nat) : PartitionInv (newPartition level) := by
  constructor
  · intro _
    simp [newPartition, Partition.is_spilled, Partition.buildUnpinned]
  · intro h
    simp [newPartition] at h

theorem partitionInv_step (p : Partition) (o : POp) (h : PartitionInv p) :
    PartitionInv (applyOp p o) := by
  unfold applyOp
  by_cases hc : p.is_closed
  · simp [hc, h]
  · simp only [hc, if_false, Bool.false_eq_true]
    cases o with
    | appendBuild r =>
      unfold Partition.append_build
      by_cases hw : p.buildWriteClosed
      · simpa [hw] using h
      · cases hs : p.buildStream with
        | none => simpa [hw, hs] using h
        | some s =>
          rcases h with ⟨h1, _⟩
          simp only [Bool.not_eq_true] at hc
          constructor
          · intro _
            simpa [hw, hs, Partition.is_spilled, Partition.buildUnpinned]
              using h1 hc
          · intro hcl
            simp [hw, hs] at hcl
            exact absurd hcl (by simp [hc])
    | appendProbe r =>
      unfold Partition.append_probe
      cases hs : p.probeStream with
      | none => simpa [hs] using h
      | some s =>
        rcases h with ⟨h1, _⟩
        simp only [Bool.not_eq_true] at hc
        constructor
        · intro _
          simpa [hs, Partition.is_spilled, Partition.buildUnpinned] using h1 hc
        · intro hcl
          simp [hs] at hcl
          exact absurd hcl (by simp [hc])
    | allocProbe =>
      unfold Partition.allocProbe
      cases hs : p.probeStream with
      | none =>
        rcases h with ⟨h1, _⟩
        simp only [Bool.not_eq_true] at hc
        constructor
        · intro _
          simpa [hs, Partition.is_spilled, Partition.buildUnpinned] using h1 hc
        · intro hcl
          simp at hcl
          exact absurd hcl (by simp [hc])
      | some s => simpa [hs] using h
    | build canPin canAlloc =>
      unfold Partition.BuildHashTable
      cases hs : p.buildStream with
      | none => simpa [hs] using h
      | some s =>
        by_cases hok : (canPin && canAlloc) = true
        · simp only [hs, hok, if_true]
          constructor
          · intro _
            simp [Partition.is_spilled, Partition.buildUnpinned]
          · intro hcl
            simp at hcl
            exact absurd hcl (by simp only [Bool.not_eq_true] at hc; simp [hc])
        · simp only [hs, hok, if_false]
          constructor
          · intro _
            simp [Partition.is_spilled, Partition.buildUnpinned]
          · intro hcl
            simp at hcl
            exact absurd hcl (by simp only [Bool.not_eq_true] at hc; simp [hc])
    | spill =>
      unfold Partition.spill
      constructor
      · intro _
        cases hs : p.buildStream <;>
          simp [hs, Partition.is_spilled, Partition.buildUnpinned]
      · intro hcl
        simp at hcl
        exact absurd hcl (by simp only [Bool.not_eq_true] at hc; simp [hc])
    | close =>
      unfold Partition.Close
      constructor
      · intro hcl
        simp at hcl
      · intro _
        simp

theorem partitionInv_run (level : Nat) (ops : List POp) :
    PartitionInv (ops.foldl applyOp (newPartition level)) := by
  have hgen : ∀ (l : List POp) (p : Partition), PartitionInv p →
      PartitionInv (l.foldl applyOp p) := by
    intro l
    induction l with
    | nil => intro p hp; exact hp
    | cons o l ih =>
      intro p hp
      exact ih (applyOp p o) (partitionInv_step p o hp)
  exact hgen ops (newPartition level) (partitionInv_new level)

/-- C4: `BuildHashTable` pins the build stream, allocates a hash table sized
proportional to the build-row count and inserts every build row; on failure it
leaves the build stream unpinned (the partition is spilled), the hash table
absent, and reports `built = false` (DidNotFit); in both cases no build row
can be appended to the partition afterwards. -/
theorem c4_build_hash_table (canPin canAlloc : Bool) (p : Partition)
    (s : BTStream) (hs : p.buildStream = some s) :
    ((p.BuildHashTable canPin canAlloc).2 = true ↔
        (canPin = true ∧ canAlloc = true)) ∧
      ((p.BuildHashTable canPin canAlloc).2 = true →
        (p.BuildHashTable canPin canAlloc).1.buildStream =
            some { s with pinned := true } ∧
          (p.BuildHashTable canPin canAlloc).1.hashTbl =
            some (htBucketCount s.rows.length, s.rows)) ∧
      ((p.BuildHashTable canPin canAlloc).2 = false →
        (p.BuildHashTable canPin canAlloc).1.buildStream =
            some { s with pinned := false } ∧
          (p.BuildHashTable canPin canAlloc).1.hashTbl = none ∧
          (p.BuildHashTable canPin canAlloc).1.is_spilled = true) ∧
      (∀ r, ((p.BuildHashTable canPin canAlloc).1).append_build r =
        ((p.BuildHashTable canPin canAlloc).1, false)) := by
  cases canPin <;> cases canAlloc <;>
    simp [Partition.BuildHashTable, hs, Partition.is_spilled,
      Partition.append_build]

theorem c4_build_hash_table_witness :
    (newPartition 0).buildStream = some { rows := [], pinned := true } ∧
      ((((newPartition 0).BuildHashTable false true).2 = true ↔
          (false = true ∧ true = true)) ∧
        (((newPartition 0).BuildHashTable false true).2 = true →
          ((newPartition 0).BuildHashTable false true).1.buildStream =
              some { rows := [], pinned := true } ∧
            ((newPartition 0).BuildHashTable false true).1.hashTbl =
              some (htBucketCount 0, [])) ∧
        (((newPartition 0).BuildHashTable false true).2 = false →
          ((newPartition 0).BuildHashTable false true).1.buildStream =
              some { rows := [], pinned := false } ∧
            ((newPartition 0).BuildHashTable false true).1.hashTbl = none ∧
            ((newPartition 0).BuildHashTable false true).1.is_spilled = true) ∧
        (∀ r, (((newPartition 0).BuildHashTable false true).1).append_build r =
          (((newPartition 0).BuildHashTable false true).1, false))) :=
  ⟨rfl, c4_build_hash_table false true (newPartition 0)
    { rows := [], pinned := true } rfl⟩

/-- C8: for every partition reachable through any sequence of lifecycle
operations, a non-closed partition is spilled exactly when its hash table is
null and its build stream is unpinned, and a closed partition owns no hash
table and no streams. -/
theorem c8_partition_invariant (level : Nat) (ops : List POp) (p : Partition)
    (hp : p = ops.foldl applyOp (newPartition level)) :
    (p.is_closed = false →
      (p.is_spilled = true ↔ p.hashTbl = none ∧ p.buildUnpinned = true)) ∧
    (p.is_closed = true →
      p.hashTbl = none ∧ p.buildStream = none ∧ p.probeStream = none) :=
  hp ▸ partitionInv_run level ops

/-- The concrete final partition state used by the C8 witness: spilled then
closed. -/
def c8Part : Partition := [POp.spill, POp.close].foldl applyOp (newPartition 1)

theorem c8_partition_invariant_witness :
    c8Part = [POp.spill, POp.close].foldl applyOp (newPartition 1) ∧
      ((c8Part.is_closed = false →
          (c8Part.is_spilled = true ↔
            c8Part.hashTbl = none ∧ c8Part.buildUnpinned = true)) ∧
        (c8Part.is_closed = true →
          c8Part.hashTbl = none ∧ c8Part.buildStream = none ∧
            c8Part.probeStream = none)) :=
  ⟨rfl, c8_partition_invariant 1 [POp.spill, POp.close] c8Part rfl⟩

/-- A partition as seen by the spill policy: its label, whether it is already
spilled, its currently pinned footprint in bytes, and the pin state of its two
streams (the probe stream may not have been allocated yet). -/
structure SPartition where
  pid : Nat
  spilled : Bool
  pinnedBytes : Nat
  probeAllocated : Bool
  buildPinned : Bool
  probePinned : Bool
  deriving DecidableEq, Repr

/-- Modelled from the spec: the victim selection of `SpillPartitions`
(spec section 4.6): walk `hash_partitions_` and pick the partition with the
largest currently pinned footprint that is not already spilled, returning its
index and value; `none` when every partition is already spilled. -/
def selectVictim : List SPartition → Option (Nat × SPartition)
  | [] => none
  | p :: ps =>
    match selectVictim ps with
    | none => if p.spilled then none else some (0, p)
    | some (j, q) =>
      if p.spilled then some (j + 1, q)
      else if p.pinnedBytes < q.pinnedBytes then some (j + 1, q)
      else some (0, p)

/-- Modelled from the spec: spilling the victim unpins its build stream and,
if already allocated, its probe stream (spec section 4.6), releasing its
pinned footprint. -/
def unpinPartition (p : SPartition) : SPartition :=
  { p with spilled := true, buildPinned := false,
           probePinned := if p.probeAllocated then false else p.probePinned,
           pinnedBytes := 0 }

/-- Modelled from the spec: the body of `SpillPartitions` is not in src/ (only
its declaration at partitioned-hash-join-node.h line 145). Per the header
comment at lines 143-144 and spec section 4.6, it walks `hash_partitions_` and
picks one victim to spill; when every partition is already spilled it fails
with MemLimitExceeded. On success it returns the updated partition list and
the number of bytes released. -/
def SpillPartitions (ps : List SPartition) :
    Except JoinError (List SPartition × Nat) :=
  match selectVictim ps with
  | none => .error .memLimitExceeded
  | some (j, q) => .ok (ps.set j (unpinPartition q), q.pinnedBytes)

theorem selectVictim_none_iff (ps : List SPartition) :
    selectVictim ps = none ↔ ∀ p ∈ ps, p.spilled = true := by
  induction ps with
  | nil => simp [selectVictim]
  | cons p ps ih =>
    cases hrest : selectVictim ps with
    | none =>
      by_cases hsp : p.spilled <;>
        simp_all [selectVictim, hrest, hsp]
    | some jq =>
      obtain ⟨j, q⟩ := jq
      rw [hrest] at ih
      by_cases hsp : p.spilled <;>
        simp_all [selectVictim, hrest, hsp]
      split <;> simp

theorem selectVictim_spec (ps : List SPartition) (j : Nat) (q : SPartition)
    (h : selectVictim ps = some (j, q)) :
    ps.get? j = some q ∧ q.spilled = false ∧
      ∀ r ∈ ps, r.spilled = false → r.pinnedBytes ≤ q.pinnedBytes := by
  induction ps generalizing j q with
  | nil => simp [selectVictim] at h
  | cons p ps ih =>
    cases hrest : selectVictim ps with
    | none =>
      have hall := (selectVictim_none_iff ps).mp hrest
      by_cases hsp : p.spilled
      · simp [selectVictim, hrest, hsp] at h
      · simp only [selectVictim, hrest, hsp, if_false, Bool.false_eq_true,
          Option.some.injEq, Prod.mk.injEq] at h
        obtain ⟨hj, hq⟩ := h
        subst hj; subst hq
        refine ⟨rfl, by simpa using hsp, ?_⟩
        intro r hr hrs
        rcases List.mem_cons.mp hr with rfl | hr
        · exact le_refl _
        · exact absurd (hall r hr) (by simp [hrs])
    | some jq =>
      obtain ⟨j', q'⟩ := jq
      obtain ⟨hget, hqs, hmax⟩ := ih j' q' hrest
      by_cases hsp : p.spilled
      · simp only [selectVictim, hrest, hsp, if_true, Option.some.injEq,
          Prod.mk.injEq] at h
        obtain ⟨hj, hq⟩ := h
        subst hj; subst hq
        refine ⟨by simpa using hget, hqs, ?_⟩
        intro r hr hrs
        rcases List.mem_cons.mp hr with rfl | hr
        · exact absurd hsp (by simp [hrs])
        · exact hmax r hr hrs
      · by_cases hlt : p.pinnedBytes < q'.pinnedBytes
        · simp only [selectVictim, hrest, hsp, hlt, if_true, if_false,
            Bool.false_eq_true, Option.some.injEq, Prod.mk.injEq] at h
          obtain ⟨hj, hq⟩ := h
          subst hj; subst hq
          refine ⟨by simpa using hget, hqs, ?_⟩
          intro r hr hrs
          rcases List.mem_cons.mp hr with rfl | hr
          · exact le_of_lt hlt
          · exact hmax r hr hrs
        · simp only [selectVictim, hrest, hsp, hlt, if_false,
            Bool.false_eq_true, Option.some.injEq, Prod.mk.injEq] at h
          obtain ⟨hj, hq⟩ := h
          subst hj; subst hq
          refine ⟨rfl, by simpa using hsp, ?_⟩
          intro r hr hrs
          rcases List.mem_cons.mp hr with rfl | hr
          · exact le_refl _
          · exact le_trans (hmax r hr hrs) (Nat.le_of_not_lt hlt)

/-- C6: `SpillPartitions` selects exactly one victim from `hash_partitions_`
— a partition with the largest currently pinned footprint among those not
already spilled — unpins its build stream (and its probe stream when already
allocated), and leaves every other partition unchanged; when every partition
is already spilled it fails with MemLimitExceeded (and a victim exists
whenever some partition is not spilled). -/
theorem c6_spill_partitions (ps : List SPartition) :
    ((∀ p ∈ ps, p.spilled = true) →
        SpillPartitions ps = .error .memLimitExceeded) ∧
      ((∃ p ∈ ps, p.spilled = false) →
        ∃ j q, selectVictim ps = some (j, q)) ∧
      (∀ j q, selectVictim ps = some (j, q) →
        ps.get? j = some q ∧ q.spilled = false ∧
          (∀ r ∈ ps, r.spilled = false → r.pinnedBytes ≤ q.pinnedBytes) ∧
          SpillPartitions ps = .ok (ps.set j (unpinPartition q), q.pinnedBytes) ∧
          (unpinPartition q).buildPinned = false ∧
          (unpinPartition q).spilled = true ∧
          (q.probeAllocated = true → (unpinPartition q).probePinned = false) ∧
          (∀ k, k ≠ j → (ps.set j (unpinPartition q)).get? k = ps.get? k)) := by
  refine ⟨?_, ?_, ?_⟩
  · intro hall
    unfold SpillPartitions
    rw [(selectVictim_none_iff ps).mpr hall]
  · intro ⟨p, hp, hps⟩
    cases hsel : selectVictim ps with
    | none =>
      exact absurd ((selectVictim_none_iff ps).mp hsel p hp) (by simp [hps])
    | some jq => exact ⟨jq.1, jq.2, by simp⟩
  · intro j q hsel
    obtain ⟨hget, hqs, hmax⟩ := selectVictim_spec ps j q hsel
    refine ⟨hget, hqs, hmax, ?_, rfl, rfl, ?_, ?_⟩
    · unfold SpillPartitions
      rw [hsel]
    · intro hpa
      simp [unpinPartition, hpa]
    · intro k hk
      exact List.get?_set_ne _ ps (fun h => hk h.symm)

/-- Concrete partition list for the C6 witness: one spilled partition and two
live ones with footprints 3 and 7. -/
def c6Parts : List SPartition :=
  [{ pid := 0, spilled := true, pinnedBytes := 5, probeAllocated := false,
     buildPinned := false, probePinned := false },
   { pid := 1, spilled := false, pinnedBytes := 3, probeAllocated := true,
     buildPinned := true, probePinned := true },
   { pid := 2, spilled := false, pinnedBytes := 7, probeAllocated := false,
     buildPinned := true, probePinned := false }]

theorem c6_spill_partitions_witness :
    ((∀ p ∈ c6Parts, p.spilled = true) →
        SpillPartitions c6Parts = .error .memLimitExceeded) ∧
      ((∃ p ∈ c6Parts, p.spilled = false) →
        ∃ j q, selectVictim c6Parts = some (j, q)) ∧
      (∀ j q, selectVictim c6Parts = some (j, q) →
        c6Parts.get? j = some q ∧ q.spilled = false ∧
          (∀ r ∈ c6Parts, r.spilled = false →
            r.pinnedBytes ≤ q.pinnedBytes) ∧
          SpillPartitions c6Parts =
            .ok (c6Parts.set j (unpinPartition q), q.pinnedBytes) ∧
          (unpinPartition q).buildPinned = false ∧
          (unpinPartition q).spilled = true ∧
          (q.probeAllocated = true → (unpinPartition q).probePinned = false) ∧
          (∀ k, k ≠ j →
            (c6Parts.set j (unpinPartition q)).get? k = c6Parts.get? k)) :=
  c6_spill_partitions c6Parts

/-- A buffered tuple stream as seen by the append path: its rows and the
number of rows its current reservation can hold. -/
structure PStream where
  rows : List Nat
  reservation : Nat
  deriving DecidableEq, Repr

/-- The stream is out of reservation when it cannot hold one more row. -/
def outOfReservation (s : PStream) : Bool :=
  decide (s.reservation ≤ s.rows.length)

/-- Modelled from the spec: `add_row` of the buffered tuple stream
(spec section 6): appends when reservation allows and reports NeedsSpill
(false) otherwise. -/
def add_row (s : PStream) (r : Nat) : PStream × Bool :=
  if s.rows.length < s.reservation then ({ s with rows := s.rows ++ [r] }, true)
  else (s, false)

/-- The node state seen by `AppendRow`: the target stream, the partitions
available for spilling, and the `status_` cell
(partitioned-hash-join-node.h line 242). `none` means OK. -/
structure AppendState where
  stream : PStream
  partitions : List SPartition
  status_ : Option JoinError
  deriving DecidableEq, Repr

/-- Modelled from the spec: the body of `AppendRow` is not in src/ (only its
declaration at partitioned-hash-join-node.h line 141). Per the header comment
at lines 136-140, it appends the row to the stream; if out of memory it spills
a partition and tries to add the row again; on unrecoverable failure it
returns false with the error in `status_` (not returned, because the path is
performance sensitive). `fuel` bounds the number of spill retries. -/
def AppendRow : Nat → AppendState → Nat → AppendState × Bool
  | 0, st, r =>
    match add_row st.stream r with
    | (s', true) => ({ st with stream := s' }, true)
    | (_, false) => ({ st with status_ := some .memLimitExceeded }, false)
  | Nat.succ f, st, r =>
    match add_row st.stream r with
    | (s', true) => ({ st with stream := s' }, true)
    | (_, false) =>
      match SpillPartitions st.partitions with
      | .error e => ({ st with status_ := some e }, false)
      | .ok (ps', freed) =>
        AppendRow f
          { st with partitions := ps',
                    stream :=
                      { st.stream with
                          reservation := st.stream.reservation + freed } } r

theorem add_row_false_iff (s : PStream) (r : Nat) :
    (add_row s r).2 = false ↔ outOfReservation s = true := by
  unfold add_row outOfReservation
  by_cases h : s.rows.length < s.reservation <;> simp [h] <;> omega

theorem appendRow_false_sets_status (fuel : Nat) (st : AppendState) (r : Nat)
    (h : (AppendRow fuel st r).2 = false) :
    (AppendRow fuel st r).1.status_.isSome = true := by
  induction fuel generalizing st with
  | zero =>
    unfold AppendRow at h ⊢
    cases hadd : add_row st.stream r with
    | mk s' ok =>
      cases ok <;> simp_all
  | succ f ih =>
    unfold AppendRow at h ⊢
    cases hadd : add_row st.stream r with
    | mk s' ok =>
      cases ok with
      | true => simp_all
      | false =>
        simp only [hadd] at h ⊢
        cases hsp : SpillPartitions st.partitions with
        | error e => simp_all
        | ok pr =>
          simp only [hsp] at h ⊢
          exact ih _ h

theorem appendRow_spills_and_retries (f : Nat) (st : AppendState) (r : Nat)
    (ps' : List SPartition) (freed : Nat)
    (hfail : (add_row st.stream r).2 = false)
    (hspill : SpillPartitions st.partitions = .ok (ps', freed)) :
    AppendRow (f + 1) st r =
      AppendRow f
        { st with partitions := ps',
                  stream :=
                    { st.stream with
                        reservation := st.stream.reservation + freed } } r := by
  conv_lhs => unfold AppendRow
  cases hadd : add_row st.stream r with
  | mk s' ok =>
    cases ok with
    | true => rw [hadd] at hfail; simp at hfail
    | false => simp [hadd, hspill]

/-- C5: appending a row to a partition stream returns a boolean that is false
exactly when the stream is out of reservation; a false return from `AppendRow`
records the error in the `status_` cell instead of returning it, and an append
failure is handled by spilling some partition and retrying the append with the
released reservation. -/
theorem c5_append_row :
    (∀ s r, (add_row s r).2 = false ↔ outOfReservation s = true) ∧
      (∀ fuel st r, (AppendRow fuel st r).2 = false →
        (AppendRow fuel st r).1.status_.isSome = true) ∧
      (∀ f st r ps' freed, (add_row st.stream r).2 = false →
        SpillPartitions st.partitions = .ok (ps', freed) →
        AppendRow (f + 1) st r =
          AppendRow f
            { st with partitions := ps',
                      stream :=
                        { st.stream with
                            reservation := st.stream.reservation + freed } } r) :=
  ⟨add_row_false_iff, appendRow_false_sets_status, appendRow_spills_and_retries⟩

/-- Concrete partition list for the C5 witness: a single live partition with
footprint 7. -/
def c5Parts : List SPartition :=
  [{ pid := 0, spilled := false, pinnedBytes := 7, probeAllocated := false,
     buildPinned := true, probePinned := false }]

/-- Concrete node state for the C5 witness: a stream with no reservation. -/
def c5State : AppendState :=
  { stream := { rows := [], reservation := 0 }, partitions := c5Parts,
    status_ := none }

theorem c5_append_row_witness :
    ((add_row { rows := [], reservation := 0 } 7).2 = false ↔
        outOfReservation { rows := [], reservation := 0 } = true) ∧
      ((AppendRow 0 c5State 7).2 = false →
        (AppendRow 0 c5State 7).1.status_.isSome = true) ∧
      AppendRow 1 c5State 7 =
        AppendRow 0
          { c5State with
              partitions := c5Parts.set 0
                (unpinPartition
                  { pid := 0, spilled := false, pinnedBytes := 7,
                    probeAllocated := false, buildPinned := true,
                    probePinned := false }),
              stream :=
                { c5State.stream with
                    reservation := c5State.stream.reservation + 7 } } 7 :=
  ⟨c5_append_row.1 { rows := [], reservation := 0 } 7,
   c5_append_row.2.1 0 c5State 7,
   c5_append_row.2.2 0 c5State 7
     (c5Parts.set 0
       (unpinPartition
         { pid := 0, spilled := false, pinnedBytes := 7,
           probeAllocated := false, buildPinned := true,
           probePinned := false })) 7 rfl rfl⟩

/-- A hash partition as seen by `CleanUpHashPartitions`: at the end of the
probe phase a partition either holds an in-memory hash table or was fully
spilled on both sides. The `pid` field is a label used to track the partition
through the collections it moves to. -/
structure HPartition where
  pid : Nat
  hasHashTable : Bool
  deriving DecidableEq, Repr

/-- The destination collections of `CleanUpHashPartitions`. -/
structure CleanupResult where
  outputBuild : List HPartition
  closed : List HPartition
  spilled : List HPartition
  deriving DecidableEq, Repr

/-- Modelled from the spec: which join variants require emitting unmatched
build rows after the probe side is drained. Per the emission table of spec
section 4.5 phase 3 (last column) these are right outer and full outer
(emit with probe = null) and right anti (emit if not matched, after phase 4;
see also spec section 8 scenario 5); right semi emits its build rows during
probing via the matched flags, so it does not. The header comment of
`CleanUpHashPartitions` (partitioned-hash-join-node.h lines 184-185) names
only right-outer and full-outer because this revision of the engine predates
anti joins. -/
def needsUnmatchedBuild : TJoinOp → Bool
  | .RIGHT_OUTER_JOIN => true
  | .FULL_OUTER_JOIN => true
  | .RIGHT_ANTI_JOIN => true
  | _ => false

/-- Modelled from the spec: the body of `CleanUpHashPartitions` is not in src/
(only its declaration at partitioned-hash-join-node.h line 188). Per the header
comment at lines 181-187 it walks `hash_partitions_`: a partition with a hash
table is closed — unless the variant needs unmatched-build emission, in which
case it is put on `output_build_partitions_` — and a partition without a hash
table (both sides spilled) is moved to `spilled_partitions_`. -/
def cleanUpHashPartitions (op : TJoinOp) : List HPartition → CleanupResult
  | [] => ⟨[], [], []⟩
  | p :: ps =>
    let r := cleanUpHashPartitions op ps
    if p.hasHashTable then
      if needsUnmatchedBuild op then { r with outputBuild := p :: r.outputBuild }
      else { r with closed := p :: r.closed }
    else { r with spilled := p :: r.spilled }

theorem cleanUp_outputBuild (op : TJoinOp) (ps : List HPartition) :
    (cleanUpHashPartitions op ps).outputBuild =
      ps.filter (fun p => p.hasHashTable && needsUnmatchedBuild op) := by
  induction ps with
  | nil => rfl
  | cons p ps ih =>
    by_cases h1 : p.hasHashTable <;> by_cases h2 : needsUnmatchedBuild op <;>
      simp [cleanUpHashPartitions, List.filter, h1, h2, ih]

theorem cleanUp_closed (op : TJoinOp) (ps : List HPartition) :
    (cleanUpHashPartitions op ps).closed =
      ps.filter (fun p => p.hasHashTable && !needsUnmatchedBuild op) := by
  induction ps with
  | nil => rfl
  | cons p ps ih =>
    by_cases h1 : p.hasHashTable <;> by_cases h2 : needsUnmatchedBuild op <;>
      simp [cleanUpHashPartitions, List.filter, h1, h2, ih]

theorem cleanUp_spilled (op : TJoinOp) (ps : List HPartition) :
    (cleanUpHashPartitions op ps).spilled =
      ps.filter (fun p => !p.hasHashTable) := by
  induction ps with
  | nil => rfl
  | cons p ps ih =>
    by_cases h1 : p.hasHashTable <;> by_cases h2 : needsUnmatchedBuild op <;>
      simp [cleanUpHashPartitions, List.filter, h1, h2, ih]

/-- A row: its equi-join key (abstract) and a payload distinguishing rows with
equal keys. The operator treats rows as opaque but hashable and comparable
(spec section 3). -/
structure Row where
  key : Nat
  payload : Nat
  deriving DecidableEq, Repr

/-- An output row of the join: optional build side and optional probe side
(`none` encodes the null side of outer/semi/anti emissions). -/
abbrev JoinedRow := Option Row × Option Row

/-- The configuration and collaborator oracles of one operator run: the join
variant, the non-equi conjuncts, the hash function over keys, and the two
memory oracles — whether partition `i` created at a level keeps its hash table
in memory during BuildHashTables, and whether a spilled partition fits in
memory when popped in PrepareNextPartition. -/
structure JoinCtx where
  joinOp : TJoinOp
  conj : Row → Row → Bool
  hashFn : Nat → Nat
  inMem : Nat → Nat → List Row → Bool
  fits : Nat → List Row → Bool

/-- A build row and a probe row match when their equi-join keys are equal and
the non-equi conjuncts pass (spec section 4.5 phase 3). -/
def rowMatch (c : JoinCtx) (b p : Row) : Bool :=
  b.key == p.key && c.conj b p

/-- The build rows matching a probe row. -/
def probeMatches (c : JoinCtx) (B : List Row) (p : Row) : List Row :=
  B.filter (fun b => rowMatch c b p)

/-- Modelled from the spec: the per-probe-row emission of each join variant
(the table of spec section 4.5 phase 3); right-side variants emit their
build-only rows after phase 4 via `buildEmit`. -/
def probeEmit (c : JoinCtx) (B : List Row) (p : Row) : List JoinedRow :=
  match c.joinOp with
  | .INNER_JOIN => (probeMatches c B p).map (fun b => (some b, some p))
  | .LEFT_OUTER_JOIN =>
    match probeMatches c B p with
    | [] => [(none, some p)]
    | ms => ms.map (fun b => (some b, some p))
  | .RIGHT_OUTER_JOIN => (probeMatches c B p).map (fun b => (some b, some p))
  | .FULL_OUTER_JOIN =>
    match probeMatches c B p with
    | [] => [(none, some p)]
    | ms => ms.map (fun b => (some b, some p))
  | .LEFT_SEMI_JOIN =>
    if (probeMatches c B p).isEmpty then [] else [(none, some p)]
  | .RIGHT_SEMI_JOIN => []
  | .LEFT_ANTI_JOIN =>
    if (probeMatches c B p).isEmpty then [(none, some p)] else []
  | .RIGHT_ANTI_JOIN => []

/-- Whether a build row was matched by any probe row (the matched flag of the
hash-table entry, spec section 3). -/
def buildMatched (c : JoinCtx) (P : List Row) (b : Row) : Bool :=
  P.any (fun p => rowMatch c b p)

/-- Modelled from the spec: the unmatched-build emission of each join variant
after the probe side is drained (the table of spec section 4.5 phase 3, last
column, and the right-semi row). -/
def buildEmit (c : JoinCtx) (P : List Row) (b : Row) : List JoinedRow :=
  match c.joinOp with
  | .RIGHT_OUTER_JOIN => if buildMatched c P b then [] else [(some b, none)]
  | .FULL_OUTER_JOIN => if buildMatched c P b then [] else [(some b, none)]
  | .RIGHT_SEMI_JOIN => if buildMatched c P b then [(some b, none)] else []
  | .RIGHT_ANTI_JOIN => if buildMatched c P b then [] else [(some b, none)]
  | _ => []

/-- Modelled from the spec: the reference non-spilling hash join of property
P1 (spec section 8): probe-driven emissions for every probe row followed by
the unmatched-build emissions for every build row. -/
def refJoin (c : JoinCtx) (B P : List Row) : List JoinedRow :=
  P.flatMap (probeEmit c B) ++ B.flatMap (buildEmit c P)

/-- The bit position of the partitioning slice at a level (spec section 4.4):
each level consumes a fresh `NUM_PARTITIONING_BITS`-wide slice of the 32-bit
hash, starting from the high bits. -/
def routerShift (level : Nat) : Nat :=
  32 - NUM_PARTITIONING_BITS - level * NUM_PARTITIONING_BITS

/-- Modelled from the spec: the partitioning router (spec section 4.4):
`(h >> (32 - NUM_PARTITIONING_BITS - level*NUM_PARTITIONING_BITS)) & (FANOUT - 1)`. -/
def routerIdx (c : JoinCtx) (level : Nat) (r : Row) : Nat :=
  (c.hashFn r.key >>> routerShift level) &&& (PARTITION_FANOUT - 1)

theorem routerIdx_lt (c : JoinCtx) (level : Nat) (r : Row) :
    routerIdx c level r < PARTITION_FANOUT := by
  have h : (c.hashFn r.key >>> routerShift level) &&& 3 < 2 ^ 2 :=
    Nat.and_lt_two_pow _ (by norm_num)
  simpa [routerIdx, PARTITION_FANOUT] using h

theorem rowMatch_same_idx (c : JoinCtx) (level : Nat) (b p : Row)
    (h : rowMatch c b p = true) :
    routerIdx c level b = routerIdx c level p := by
  have hk : b.key = p.key := by
    simp only [rowMatch, Bool.and_eq_true, beq_iff_eq] at h
    exact h.1
  simp [routerIdx, hk]

theorem probeEmit_congr (c : JoinCtx) (B B' : List Row) (p : Row)
    (h : probeMatches c B p = probeMatches c B' p) :
    probeEmit c B p = probeEmit c B' p := by
  cases hop : c.joinOp <;> simp only [probeEmit, hop, h]

theorem buildEmit_congr (c : JoinCtx) (P P' : List Row) (b : Row)
    (h : buildMatched c P b = buildMatched c P' b) :
    buildEmit c P b = buildEmit c P' b := by
  cases hop : c.joinOp <;> simp only [buildEmit, hop, h]

theorem probeMatches_filter_idx (c : JoinCtx) (level : Nat) (B : List Row)
    (p : Row) :
    probeMatches c
        (B.filter (fun b => routerIdx c level b == routerIdx c level p)) p =
      probeMatches c B p := by
  unfold probeMatches
  rw [List.filter_filter]
  apply List.filter_congr
  intro b _
  cases hm : rowMatch c b p
  · simp
  · simp [rowMatch_same_idx c level b p hm]

theorem any_congr_local {α : Type} (l : List α) (p q : α → Bool)
    (h : ∀ a ∈ l, p a = q a) : l.any p = l.any q := by
  induction l with
  | nil => rfl
  | cons a l ih =>
    simp only [List.any_cons, h a (List.mem_cons_self a l)]
    rw [ih (fun x hx => h x (List.mem_cons_of_mem a hx))]

theorem buildMatched_filter_idx (c : JoinCtx) (level : Nat) (P : List Row)
    (b : Row) :
    buildMatched c
        (P.filter (fun p => routerIdx c level p == routerIdx c level b)) b =
      buildMatched c P b := by
  unfold buildMatched
  rw [List.any_filter]
  apply any_congr_local
  intro p _
  cases hm : rowMatch c b p
  · simp
  · simp [rowMatch_same_idx c level b p hm]

theorem ofList_flatMap_partition (L : List Row) (f : Row → List JoinedRow)
    (idx : Row → Nat) (hidx : ∀ r, idx r < PARTITION_FANOUT) :
    ∑ i ∈ Finset.range PARTITION_FANOUT,
        (((L.filter (fun r => idx r == i)).flatMap f : List JoinedRow) :
          Multiset JoinedRow) =
      ((L.flatMap f : List JoinedRow) : Multiset JoinedRow) := by
  induction L with
  | nil => simp
  | cons r L ih =>
    have hsplit : ∀ i ∈ Finset.range PARTITION_FANOUT,
        ((((r :: L).filter (fun x => idx x == i)).flatMap f : List JoinedRow) :
            Multiset JoinedRow) =
          (if idx r = i then ((f r : List JoinedRow) : Multiset JoinedRow)
            else 0) +
            (((L.filter (fun x => idx x == i)).flatMap f : List JoinedRow) :
              Multiset JoinedRow) := by
      intro i _
      by_cases h : idx r = i
      · simp [List.filter_cons, h]
      · simp [List.filter_cons, h]
    rw [Finset.sum_congr rfl hsplit, Finset.sum_add_distrib, ih,
      Finset.sum_ite_eq (Finset.range PARTITION_FANOUT) (idx r)]
    simp [Finset.mem_range.mpr (hidx r)]

theorem refJoin_partition (c : JoinCtx) (level : Nat) (B P : List Row) :
    ((refJoin c B P : List JoinedRow) : Multiset JoinedRow) =
      ∑ i ∈ Finset.range PARTITION_FANOUT,
        ((refJoin c (B.filter (fun r => routerIdx c level r == i))
            (P.filter (fun r => routerIdx c level r == i)) : List JoinedRow) :
          Multiset JoinedRow) := by
  have hprobe : ∀ i, (P.filter (fun r => routerIdx c level r == i)).flatMap
      (probeEmit c (B.filter (fun r => routerIdx c level r == i))) =
      (P.filter (fun r => routerIdx c level r == i)).flatMap
        (probeEmit c B) := by
    intro i
    apply List.flatMap_congr
    intro p hp
    have hpi : routerIdx c level p = i := by
      have := List.of_mem_filter hp
      simpa using this
    apply probeEmit_congr
    rw [← hpi, probeMatches_filter_idx]
  have hbuild : ∀ i, (B.filter (fun r => routerIdx c level r == i)).flatMap
      (buildEmit c (P.filter (fun r => routerIdx c level r == i))) =
      (B.filter (fun r => routerIdx c level r == i)).flatMap
        (buildEmit c P) := by
    intro i
    apply List.flatMap_congr
    intro b hb
    have hbi : routerIdx c level b = i := by
      have := List.of_mem_filter hb
      simpa using this
    apply buildEmit_congr
    rw [← hbi, buildMatched_filter_idx]
  calc ((refJoin c B P : List JoinedRow) : Multiset JoinedRow)
      = ((P.flatMap (probeEmit c B) : List JoinedRow) : Multiset JoinedRow) +
        ((B.flatMap (buildEmit c P) : List JoinedRow) : Multiset JoinedRow) := by
        simp [refJoin]
    _ = (∑ i ∈ Finset.range PARTITION_FANOUT,
          (((P.filter (fun r => routerIdx c level r == i)).flatMap
              (probeEmit c B) : List JoinedRow) : Multiset JoinedRow)) +
        (∑ i ∈ Finset.range PARTITION_FANOUT,
          (((B.filter (fun r => routerIdx c level r == i)).flatMap
              (buildEmit c P) : List JoinedRow) : Multiset JoinedRow)) := by
        rw [ofList_flatMap_partition P (probeEmit c B) _
            (fun r => routerIdx_lt c level r),
          ofList_flatMap_partition B (buildEmit c P) _
            (fun r => routerIdx_lt c level r)]
    _ = ∑ i ∈ Finset.range PARTITION_FANOUT,
          ((refJoin c (B.filter (fun r => routerIdx c level r == i))
              (P.filter (fun r => routerIdx c level r == i)) :
            List JoinedRow) : Multiset JoinedRow) := by
        rw [← Finset.sum_add_distrib]
        apply Finset.sum_congr rfl
        intro i _
        rw [refJoin, ← hprobe i, ← hbuild i]
        simp

/-- The observable counters of one run (spec section 6): the level of every
partition created (so `levels.length` is the partitions-created counter and
the maximum entry the max-partition-level counter), the number of
repartitions, of spilled partitions, and of build/probe rows partitioned. -/
structure RunStats where
  levels : List Nat
  numRepartitions : Nat
  numSpilled : Nat
  buildRows : Nat
  probeRows : Nat
  deriving DecidableEq, Repr

/-- The all-zero counters. -/
def RunStats.empty : RunStats := ⟨[], 0, 0, 0, 0⟩

/-- Counter merge across sub-runs. -/
def RunStats.merge (a b : RunStats) : RunStats :=
  ⟨a.levels ++ b.levels, a.numRepartitions + b.numRepartitions,
    a.numSpilled + b.numSpilled, a.buildRows + b.buildRows,
    a.probeRows + b.probeRows⟩

/-- The counter contribution of creating one partition at a level, routing its
rows to it, and possibly spilling it. -/
def createStat (level : Nat) (B P : List Row) (sp : Bool) : RunStats :=
  ⟨[level], 0, if sp then 1 else 0, B.length, P.length⟩

/-- The counter contribution of one repartitioning pass. -/
def repartStat : RunStats := ⟨[], 1, 0, 0, 0⟩

/-- Sequences the per-partition results of one partitioning pass,
concatenating outputs and merging counters; the first error wins. -/
def combineResults :
    List (Except JoinError (List JoinedRow × RunStats)) →
      Except JoinError (List JoinedRow × RunStats)
  | [] => .ok ([], RunStats.empty)
  | x :: xs =>
    match x with
    | .error e => .error e
    | .ok a =>
      match combineResults xs with
      | .error e => .error e
      | .ok b => .ok (a.1 ++ b.1, a.2.merge b.2)

/-- Modelled from the spec: phase 4 processing of one spilled partition at
`level` holding build rows `B` and probe rows `P` (spec section 4.5 phase 4
and the header comment of `PrepareNextPartition`, partitioned-hash-join-node.h
lines 198-203). If the build side fits in memory its hash table is built and
the partition is probed directly; otherwise it is repartitioned with the
next level's hash bits into `PARTITION_FANOUT` children, each either kept in
memory (probed during the repartitioning pass) or recursively drained.
`fuel` is the number of repartition levels still allowed
(`MAX_PARTITION_DEPTH - level`); exhausting it while the partition still does
not fit is the RepartitionLimit failure. -/
def drain (c : JoinCtx) : Nat → Nat → List Row → List Row →
    Except JoinError (List JoinedRow × RunStats)
  | 0, level, B, P =>
    if c.fits level B then .ok (refJoin c B P, RunStats.empty)
    else .error .repartitionLimit
  | Nat.succ f, level, B, P =>
    if c.fits level B then .ok (refJoin c B P, RunStats.empty)
    else
      match combineResults ((List.range PARTITION_FANOUT).map (fun i =>
          let Bi := B.filter (fun r => routerIdx c (level + 1) r == i)
          let Pi := P.filter (fun r => routerIdx c (level + 1) r == i)
          if c.inMem (level + 1) i Bi then
            .ok (refJoin c Bi Pi, createStat (level + 1) Bi Pi false)
          else
            match drain c f (level + 1) Bi Pi with
            | .error e => .error e
            | .ok a => .ok (a.1, (createStat (level + 1) Bi Pi true).merge a.2))) with
      | .error e => .error e
      | .ok a => .ok (a.1, repartStat.merge a.2)

/-- One child partition of a partitioning pass over (`B`, `P`) routed at
`level`: either its hash table stays in memory and it is probed directly, or
it is spilled and later drained with `f` repartition levels remaining. -/
def processChild (c : JoinCtx) (f level : Nat) (B P : List Row) (i : Nat) :
    Except JoinError (List JoinedRow × RunStats) :=
  let Bi := B.filter (fun r => routerIdx c level r == i)
  let Pi := P.filter (fun r => routerIdx c level r == i)
  if c.inMem level i Bi then
    .ok (refJoin c Bi Pi, createStat level Bi Pi false)
  else
    match drain c f level Bi Pi with
    | .error e => .error e
    | .ok a => .ok (a.1, (createStat level Bi Pi true).merge a.2)

theorem drain_succ (c : JoinCtx) (f level : Nat) (B P : List Row) :
    drain c (f + 1) level B P =
      if c.fits level B then .ok (refJoin c B P, RunStats.empty)
      else
        match combineResults ((List.range PARTITION_FANOUT).map
            (processChild c f (level + 1) B P)) with
        | .error e => .error e
        | .ok a => .ok (a.1, repartStat.merge a.2) := rfl

/-- Modelled from the spec: the whole operator run (spec section 4.5): the
build and probe inputs are routed into `PARTITION_FANOUT` level-0 partitions;
partitions whose hash tables fit in memory are probed directly, the rest are
spilled and drained in phase 4 with up to `MAX_PARTITION_DEPTH` repartition
levels. -/
def phjRun (c : JoinCtx) (B P : List Row) :
    Except JoinError (List JoinedRow × RunStats) :=
  combineResults ((List.range PARTITION_FANOUT).map
    (processChild c MAX_PARTITION_DEPTH 0 B P))

theorem listRange_map_sum (n : Nat) (g : Nat → Multiset JoinedRow) :
    ((List.range n).map g).sum = ∑ i ∈ Finset.range n, g i := by
  induction n with
  | zero => simp
  | succ n ih => simp [List.range_succ, Finset.sum_range_succ, ih]

theorem combineResults_ok_multiset
    (child : Nat → Except JoinError (List JoinedRow × RunStats))
    (M : Nat → Multiset JoinedRow) :
    ∀ (is : List Nat) (o : List JoinedRow) (s : RunStats),
      combineResults (is.map child) = .ok (o, s) →
      (∀ i ∈ is, ∀ oi si, child i = .ok (oi, si) →
        ((oi : List JoinedRow) : Multiset JoinedRow) = M i) →
      ((o : List JoinedRow) : Multiset JoinedRow) = (is.map M).sum := by
  intro is
  induction is with
  | nil =>
    intro o s hok _
    simp only [List.map_nil, combineResults, Except.ok.injEq,
      Prod.mk.injEq] at hok
    rw [← hok.1]
    simp
  | cons i is ih =>
    intro o s hok hM
    simp only [List.map_cons, combineResults] at hok
    cases hc : child i with
    | error e => rw [hc] at hok; simp at hok
    | ok a =>
      rw [hc] at hok
      cases hrest : combineResults (is.map child) with
      | error e => rw [hrest] at hok; simp at hok
      | ok b =>
        rw [hrest] at hok
        simp only [Except.ok.injEq, Prod.mk.injEq] at hok
        rw [← hok.1]
        have h1 : ((a.1 : List JoinedRow) : Multiset JoinedRow) = M i :=
          hM i (List.mem_cons_self i is) a.1 a.2 (by rw [hc])
        have h2 : ((b.1 : List JoinedRow) : Multiset JoinedRow) =
            (is.map M).sum :=
          ih b.1 b.2 hrest
            (fun j hj oj sj hcj => hM j (List.mem_cons_of_mem i hj) oj sj hcj)
        rw [List.map_cons, List.sum_cons, ← h1, ← h2]
        exact Multiset.coe_add a.1 b.1

theorem drain_conserves (c : JoinCtx) :
    ∀ (fuel level : Nat) (B P : List Row) (o : List JoinedRow) (s : RunStats),
      drain c fuel level B P = .ok (o, s) →
      ((o : List JoinedRow) : Multiset JoinedRow) =
        ((refJoin c B P : List JoinedRow) : Multiset JoinedRow) := by
  intro fuel
  induction fuel with
  | zero =>
    intro level B P o s h
    by_cases hf : c.fits level B <;> simp [drain, hf] at h
    rw [← h.1]
  | succ f ih =>
    intro level B P o s h
    rw [drain_succ] at h
    by_cases hf : c.fits level B
    · simp only [hf, if_true] at h
      simp only [Except.ok.injEq, Prod.mk.injEq] at h
      rw [← h.1]
    · simp only [hf, if_false, Bool.false_eq_true] at h
      cases hcomb : combineResults ((List.range PARTITION_FANOUT).map
          (processChild c f (level + 1) B P)) with
      | error e => rw [hcomb] at h; simp at h
      | ok a =>
        rw [hcomb] at h
        simp only [Except.ok.injEq, Prod.mk.injEq] at h
        have hM : ∀ i ∈ List.range PARTITION_FANOUT, ∀ oi si,
            processChild c f (level + 1) B P i = .ok (oi, si) →
            ((oi : List JoinedRow) : Multiset JoinedRow) =
              ((refJoin c
                  (B.filter (fun r => routerIdx c (level + 1) r == i))
                  (P.filter (fun r => routerIdx c (level + 1) r == i)) :
                List JoinedRow) : Multiset JoinedRow) := by
          intro i _ oi si hcl
          unfold processChild at hcl
          by_cases hm : c.inMem (level + 1) i
              (B.filter (fun r => routerIdx c (level + 1) r == i))
          · simp only [hm, if_true] at hcl
            simp only [Except.ok.injEq, Prod.mk.injEq] at hcl
            rw [← hcl.1]
          · simp only [hm, if_false, Bool.false_eq_true] at hcl
            cases hd : drain c f (level + 1)
                (B.filter (fun r => routerIdx c (level + 1) r == i))
                (P.filter (fun r => routerIdx c (level + 1) r == i)) with
            | error e => rw [hd] at hcl; simp at hcl
            | ok a' =>
              rw [hd] at hcl
              simp only [Except.ok.injEq, Prod.mk.injEq] at hcl
              rw [← hcl.1]
              exact ih (level + 1) _ _ a'.1 a'.2 hd
        have hsum := combineResults_ok_multiset
          (processChild c f (level + 1) B P)
          (fun i => ((refJoin c
              (B.filter (fun r => routerIdx c (level + 1) r == i))
              (P.filter (fun r => routerIdx c (level + 1) r == i)) :
            List JoinedRow) : Multiset JoinedRow))
          (List.range PARTITION_FANOUT) a.1 a.2 hcomb hM
        rw [← h.1, hsum, listRange_map_sum, ← refJoin_partition]

theorem combineResults_ok_levels
    (child : Nat → Except JoinError (List JoinedRow × RunStats))
    (bound : Nat) :
    ∀ (is : List Nat) (o : List JoinedRow) (s : RunStats),
      combineResults (is.map child) = .ok (o, s) →
      (∀ i ∈ is, ∀ oi si, child i = .ok (oi, si) →
        ∀ l ∈ si.levels, l ≤ bound) →
      ∀ l ∈ s.levels, l ≤ bound := by
  intro is
  induction is with
  | nil =>
    intro o s hok _
    simp only [List.map_nil, combineResults, Except.ok.injEq,
      Prod.mk.injEq] at hok
    rw [← hok.2]
    intro l hl
    simp [RunStats.empty] at hl
  | cons i is ih =>
    intro o s hok hL
    simp only [List.map_cons, combineResults] at hok
    cases hc : child i with
    | error e => rw [hc] at hok; simp at hok
    | ok a =>
      rw [hc] at hok
      cases hrest : combineResults (is.map child) with
      | error e => rw [hrest] at hok; simp at hok
      | ok b =>
        rw [hrest] at hok
        simp only [Except.ok.injEq, Prod.mk.injEq] at hok
        rw [← hok.2]
        intro l hl
        simp only [RunStats.merge, List.mem_append] at hl
        rcases hl with hl | hl
        · exact hL i (List.mem_cons_self i is) a.1 a.2 (by rw [hc]) l hl
        · exact ih b.1 b.2 hrest
            (fun j hj oj sj hcj => hL j (List.mem_cons_of_mem i hj) oj sj hcj)
            l hl

theorem drain_levels (c : JoinCtx) :
    ∀ (fuel level : Nat) (B P : List Row) (o : List JoinedRow) (s : RunStats),
      drain c fuel level B P = .ok (o, s) →
      ∀ l ∈ s.levels, l ≤ level + fuel := by
  intro fuel
  induction fuel with
  | zero =>
    intro level B P o s h l hl
    by_cases hf : c.fits level B <;> simp [drain, hf] at h
    rw [← h.2] at hl
    simp [RunStats.empty] at hl
  | succ f ih =>
    intro level B P o s h l hl
    rw [drain_succ] at h
    by_cases hf : c.fits level B
    · simp only [hf, if_true, Except.ok.injEq, Prod.mk.injEq] at h
      rw [← h.2] at hl
      simp [RunStats.empty] at hl
    · simp only [hf, if_false, Bool.false_eq_true] at h
      cases hcomb : combineResults ((List.range PARTITION_FANOUT).map
          (processChild c f (level + 1) B P)) with
      | error e => rw [hcomb] at h; simp at h
      | ok a =>
        rw [hcomb] at h
        simp only [Except.ok.injEq, Prod.mk.injEq] at h
        have hL : ∀ i ∈ List.range PARTITION_FANOUT, ∀ oi si,
            processChild c f (level + 1) B P i = .ok (oi, si) →
            ∀ l ∈ si.levels, l ≤ level + (f + 1) := by
          intro i _ oi si hcl l hli
          unfold processChild at hcl
          by_cases hm : c.inMem (level + 1) i
              (B.filter (fun r => routerIdx c (level + 1) r == i))
          · simp only [hm, if_true, Except.ok.injEq, Prod.mk.injEq] at hcl
            rw [← hcl.2] at hli
            simp only [createStat, List.mem_singleton] at hli
            omega
          · simp only [hm, if_false, Bool.false_eq_true] at hcl
            cases hd : drain c f (level + 1)
                (B.filter (fun r => routerIdx c (level + 1) r == i))
                (P.filter (fun r => routerIdx c (level + 1) r == i)) with
            | error e => rw [hd] at hcl; simp at hcl
            | ok a' =>
              rw [hd] at hcl
              simp only [Except.ok.injEq, Prod.mk.injEq] at hcl
              rw [← hcl.2] at hli
              simp only [RunStats.merge, createStat, List.mem_append,
                List.mem_singleton] at hli
              rcases hli with hli | hli
              · omega
              · have := ih (level + 1) _ _ a'.1 a'.2 hd l hli
                omega
        have hs : s = repartStat.merge a.2 := h.2.symm
        rw [hs] at hl
        simp only [RunStats.merge, repartStat, List.nil_append] at hl
        exact combineResults_ok_levels (processChild c f (level + 1) B P)
          (level + (f + 1)) (List.range PARTITION_FANOUT) a.1 a.2 hcomb hL l hl

/-- C1: for every join variant (the `joinOp` field of the context covers
inner, left/right/full outer, left/right semi and left/right anti), every
hash function, every non-equi conjunct set and every memory setting (the
`inMem` and `fits` oracles) under which the four-phase spilling operator does
not return an error, the multiset of rows it emits equals the multiset
produced by the reference non-spilling hash join on the same build and probe
inputs. -/
theorem c1_conservation (c : JoinCtx) (B P : List Row) (o : List JoinedRow)
    (s : RunStats) (h : phjRun c B P = .ok (o, s)) :
    ((o : List JoinedRow) : Multiset JoinedRow) =
      ((refJoin c B P : List JoinedRow) : Multiset JoinedRow) := by
  unfold phjRun at h
  have hM : ∀ i ∈ List.range PARTITION_FANOUT, ∀ oi si,
      processChild c MAX_PARTITION_DEPTH 0 B P i = .ok (oi, si) →
      ((oi : List JoinedRow) : Multiset JoinedRow) =
        ((refJoin c (B.filter (fun r => routerIdx c 0 r == i))
            (P.filter (fun r => routerIdx c 0 r == i)) :
          List JoinedRow) : Multiset JoinedRow) := by
    intro i _ oi si hcl
    unfold processChild at hcl
    by_cases hm : c.inMem 0 i (B.filter (fun r => routerIdx c 0 r == i))
    · simp only [hm, if_true, Except.ok.injEq, Prod.mk.injEq] at hcl
      rw [← hcl.1]
    · simp only [hm, if_false, Bool.false_eq_true] at hcl
      cases hd : drain c MAX_PARTITION_DEPTH 0
          (B.filter (fun r => routerIdx c 0 r == i))
          (P.filter (fun r => routerIdx c 0 r == i)) with
      | error e => rw [hd] at hcl; simp at hcl
      | ok a' =>
        rw [hd] at hcl
        simp only [Except.ok.injEq, Prod.mk.injEq] at hcl
        rw [← hcl.1]
        exact drain_conserves c MAX_PARTITION_DEPTH 0 _ _ a'.1 a'.2 hd
  have hsum := combineResults_ok_multiset
    (processChild c MAX_PARTITION_DEPTH 0 B P)
    (fun i => ((refJoin c (B.filter (fun r => routerIdx c 0 r == i))
        (P.filter (fun r => routerIdx c 0 r == i)) :
      List JoinedRow) : Multiset JoinedRow))
    (List.range PARTITION_FANOUT) o s h hM
  rw [hsum, listRange_map_sum, ← refJoin_partition]

/-- The context of the C1 witness: inner join, trivial conjuncts, identity
hash over keys, every partition spilled, every drained partition fits. -/
def c1Ctx : JoinCtx :=
  { joinOp := .INNER_JOIN, conj := fun _ _ => true, hashFn := id,
    inMem := fun _ _ _ => false, fits := fun _ _ => true }

/-- Build input of the C1 witness. -/
def c1B : List Row := [⟨1, 10⟩, ⟨2, 20⟩]

/-- Probe input of the C1 witness. -/
def c1P : List Row := [⟨2, 1⟩, ⟨3, 2⟩]

/-- The rows the C1 witness run emits. -/
def c1Out : List JoinedRow :=
  [(some ⟨2, 20⟩, some ⟨2, 1⟩)]

/-- The counters of the C1 witness run. -/
def c1Stats : RunStats :=
  { levels := [0, 0, 0, 0], numRepartitions := 0, numSpilled := 4,
    buildRows := 2, probeRows := 2 }

theorem c1_conservation_witness :
    phjRun c1Ctx c1B c1P = .ok (c1Out, c1Stats) ∧
      ((c1Out : List JoinedRow) : Multiset JoinedRow) =
        ((refJoin c1Ctx c1B c1P : List JoinedRow) : Multiset JoinedRow) :=
  ⟨rfl, c1_conservation c1Ctx c1B c1P c1Out c1Stats rfl⟩

/-- C7: every partition created during a non-erroring run has level at most
`MAX_PARTITION_DEPTH`, and a partition whose level has reached
`MAX_PARTITION_DEPTH` and that still does not fit in memory makes the drain
terminate with the RepartitionLimit error instead of repartitioning
further. -/
theorem c7_depth_limit (c : JoinCtx) (B P : List Row) (o : List JoinedRow)
    (s : RunStats) :
    (phjRun c B P = .ok (o, s) →
        ∀ l ∈ s.levels, l ≤ MAX_PARTITION_DEPTH) ∧
      (c.fits MAX_PARTITION_DEPTH B = false →
        drain c 0 MAX_PARTITION_DEPTH B P = .error .repartitionLimit) := by
  constructor
  · intro h
    unfold phjRun at h
    have hL : ∀ i ∈ List.range PARTITION_FANOUT, ∀ oi si,
        processChild c MAX_PARTITION_DEPTH 0 B P i = .ok (oi, si) →
        ∀ l ∈ si.levels, l ≤ MAX_PARTITION_DEPTH := by
      intro i _ oi si hcl l hli
      unfold processChild at hcl
      by_cases hm : c.inMem 0 i (B.filter (fun r => routerIdx c 0 r == i))
      · simp only [hm, if_true, Except.ok.injEq, Prod.mk.injEq] at hcl
        rw [← hcl.2] at hli
        simp only [createStat, List.mem_singleton] at hli
        omega
      · simp only [hm, if_false, Bool.false_eq_true] at hcl
        cases hd : drain c MAX_PARTITION_DEPTH 0
            (B.filter (fun r => routerIdx c 0 r == i))
            (P.filter (fun r => routerIdx c 0 r == i)) with
        | error e => rw [hd] at hcl; simp at hcl
        | ok a' =>
          rw [hd] at hcl
          simp only [Except.ok.injEq, Prod.mk.injEq] at hcl
          rw [← hcl.2] at hli
          simp only [RunStats.merge, createStat, List.mem_append,
            List.mem_singleton] at hli
          rcases hli with hli | hli
          · omega
          · have := drain_levels c MAX_PARTITION_DEPTH 0 _ _ a'.1 a'.2 hd l hli
            omega
    exact combineResults_ok_levels (processChild c MAX_PARTITION_DEPTH 0 B P)
      MAX_PARTITION_DEPTH (List.range PARTITION_FANOUT) o s h hL
  · intro hf
    simp [drain, hf]

/-- The context of the C7 witness: no partition ever fits, so draining at the
depth limit fails with RepartitionLimit. -/
def c7Ctx : JoinCtx :=
  { joinOp := .INNER_JOIN, conj := fun _ _ => true, hashFn := id,
    inMem := fun _ _ _ => false, fits := fun _ _ => false }

theorem c7_depth_limit_witness :
    (∀ l ∈ c1Stats.levels, l ≤ MAX_PARTITION_DEPTH) ∧
      drain c7Ctx 0 MAX_PARTITION_DEPTH c1B c1P =
        .error .repartitionLimit :=
  ⟨(c7_depth_limit c1Ctx c1B c1P c1Out c1Stats).1 rfl,
   (c7_depth_limit c7Ctx c1B c1P [] RunStats.empty).2 rfl⟩

/-- C9: running the operator twice on identical inputs with an identical
configuration (join variant, conjuncts, hash seeds, memory oracles) yields
identical results: the same error-or-output, identical observable counters
and identical output row multisets. -/
theorem c9_replay (c₁ c₂ : JoinCtx) (B₁ B₂ P₁ P₂ : List Row)
    (hc : c₁ = c₂) (hB : B₁ = B₂) (hP : P₁ = P₂) :
    phjRun c₁ B₁ P₁ = phjRun c₂ B₂ P₂ ∧
      ∀ o₁ s₁ o₂ s₂, phjRun c₁ B₁ P₁ = .ok (o₁, s₁) →
        phjRun c₂ B₂ P₂ = .ok (o₂, s₂) →
        s₁ = s₂ ∧ ((o₁ : List JoinedRow) : Multiset JoinedRow) =
          ((o₂ : List JoinedRow) : Multiset JoinedRow) := by
  subst hc; subst hB; subst hP
  refine ⟨rfl, ?_⟩
  intro o₁ s₁ o₂ s₂ h₁ h₂
  rw [h₁] at h₂
  have hpair := Except.ok.inj h₂
  have ho : o₁ = o₂ := congrArg Prod.fst hpair
  have hs : s₁ = s₂ := congrArg Prod.snd hpair
  exact ⟨hs, by rw [ho]⟩

theorem c9_replay_witness :
    c1Ctx = c1Ctx ∧
      (phjRun c1Ctx c1B c1P = phjRun c1Ctx c1B c1P ∧
        ∀ o₁ s₁ o₂ s₂, phjRun c1Ctx c1B c1P = .ok (o₁, s₁) →
          phjRun c1Ctx c1B c1P = .ok (o₂, s₂) →
          s₁ = s₂ ∧ ((o₁ : List JoinedRow) : Multiset JoinedRow) =
            ((o₂ : List JoinedRow) : Multiset JoinedRow)) :=
  ⟨rfl, c9_replay c1Ctx c1Ctx c1B c1B c1P c1P rfl rfl rfl⟩

end PartitionedHashJoin

namespace PartitionedHashJoin

/-- C2: The claim states the partitioning fan-out equals 16; in the source
(partitioned-hash-join-node.h line 114) `PARTITION_FANOUT` is 4, deliberately
lowered for testing. -/
theorem c2_fanout_not_sixteen : PARTITION_FANOUT ≠ 16 := by decide

/-- C2 (amended): the partitioning fan-out constant equals 4, is a power of
two, and `NUM_PARTITIONING_BITS` equals log2 of the fan-out. -/
theorem c2_fanout_constants :
    PARTITION_FANOUT = 4 ∧ (∃ k, PARTITION_FANOUT = 2 ^ k) ∧
      NUM_PARTITIONING_BITS = Nat.log2 PARTITION_FANOUT := by
  refine ⟨rfl, ⟨2, rfl⟩, ?_⟩
  show 2 = Nat.log2 4
  rw [Nat.log2, if_pos (by norm_num), Nat.log2, if_pos (by norm_num), Nat.log2]
  norm_num

/-- C3: `CleanUpHashPartitions` disposes of every partition of
`hash_partitions_`: in-memory partitions (those with a hash table) go to
`output_build_partitions_` when the join variant needs unmatched-build
emission and are closed otherwise, and fully spilled partitions (no hash
table) go to `spilled_partitions_`. -/
theorem c3_cleanup_disposes_all (op : TJoinOp) (ps : List HPartition) :
    (cleanUpHashPartitions op ps).outputBuild =
        ps.filter (fun p => p.hasHashTable && needsUnmatchedBuild op) ∧
      (cleanUpHashPartitions op ps).closed =
        ps.filter (fun p => p.hasHashTable && !needsUnmatchedBuild op) ∧
      (cleanUpHashPartitions op ps).spilled =
        ps.filter (fun p => !p.hasHashTable) :=
  ⟨cleanUp_outputBuild op ps, cleanUp_closed op ps, cleanUp_spilled op ps⟩

/-- C10: in every execution of the state machine starting at
PARTITIONING_BUILD, the first transition goes to PROCESSING_PROBE, the state
never returns to PARTITIONING_BUILD, and once a drain state
(PROBING_SPILLED_PARTITION or REPARTITIONING) is reached every later state is
a drain state — in particular the machine never returns to PROCESSING_PROBE
afterwards. -/
theorem c10_state_machine (ts : List State)
    (h : validRun State.PARTITIONING_BUILD ts = true) :
    (∀ t ts₂, ts = t :: ts₂ → t = State.PROCESSING_PROBE) ∧
      (∀ u ∈ ts, u ≠ State.PARTITIONING_BUILD) ∧
      (∀ ts₁ s ts₂, ts = ts₁ ++ s :: ts₂ → isDrainState s = true →
        ∀ u ∈ ts₂, isDrainState u = true) := by
  refine ⟨?_, ?_, ?_⟩
  · intro t ts₂ hts
    subst hts
    simp only [validRun, Bool.and_eq_true] at h
    cases t <;> simp_all [validTransition]
  · exact validRun_no_return_to_build _ ts h
  · intro ts₁ s ts₂ hts hdrain u hu
    subst hts
    exact validRun_stays_drain s ts₂ hdrain
      (validRun_suffix _ s ts₁ ts₂ h) u hu

theorem c10_state_machine_witness :
    validRun State.PARTITIONING_BUILD
        [State.PROCESSING_PROBE, State.REPARTITIONING,
          State.PROBING_SPILLED_PARTITION] = true ∧
      ((∀ t ts₂,
          [State.PROCESSING_PROBE, State.REPARTITIONING,
            State.PROBING_SPILLED_PARTITION] = t :: ts₂ →
          t = State.PROCESSING_PROBE) ∧
        (∀ u ∈ [State.PROCESSING_PROBE, State.REPARTITIONING,
            State.PROBING_SPILLED_PARTITION],
          u ≠ State.PARTITIONING_BUILD) ∧
        (∀ ts₁ s ts₂,
          [State.PROCESSING_PROBE, State.REPARTITIONING,
            State.PROBING_SPILLED_PARTITION] = ts₁ ++ s :: ts₂ →
          isDrainState s = true → ∀ u ∈ ts₂, isDrainState u = true)) :=
  ⟨by decide, c10_state_machine
    [State.PROCESSING_PROBE, State.REPARTITIONING,
      State.PROBING_SPILLED_PARTITION] (by decide)⟩

end PartitionedHashJoin
